import Mathlib

/-!
The AWS Secrets Manager store of chamber (`store/asmstore.go`).

A shallow embedding of `ASMStore` and of the part of the Secrets Manager client
interface it talks to, followed by the properties of the store that were checked
against it.

Conventions of the embedding.

* Go `string` is `String`; `fmt.Sprintf` with `%s` verbs is concatenation.  A Go string
  is a sequence of bytes; the embedding covers the strings that are valid UTF-8, on
  which concatenation, equality and prefix tests by bytes and by characters agree.
  Lengths are given both ways (`length` in characters, `utf8ByteSize` in bytes, the
  latter being Go's `len`).
* Go `int` is `Int`; the code only compares versions, it never computes with them.
* A Go `*string` is `Option String` (`nil` is `none`).
* A Go result pair `(T, error)` where the value is the zero value whenever the error
  is non-nil is `Except StoreError T`; a lone `error` is `Option StoreError`.
* The Secrets Manager client is an interface: it is a record of transition functions
  over an arbitrary backend state, and every request that reaches it is appended to
  a call log, so that "which backend calls were made, with which name" is observable.
* The diagnostic lines written to standard output (`fmt.Println`, `fmt.Printf`) do
  not influence any returned value or any backend call and are left out.
-/

namespace Chamber

/-! ## Data model -/

/-- Modelled from the spec: the declaration of `SecretId` (package `store`) is not part
of the files at hand; the spec gives it as `{Service: string, Key: string}`. -/
structure SecretId where
  Service : String
  Key : String
deriving DecidableEq, Repr

/-- Modelled from the spec: the declaration of `SecretMetadata` is not part of the files
at hand; the spec gives `{Created, CreatedBy, Version, Key}`.  `Created` is a point in
time, kept as a number whose zero is the zero `time.Time`. -/
structure SecretMetadata where
  Created : Nat
  CreatedBy : String
  Version : Int
  Key : String
deriving DecidableEq, Repr

/-- Modelled from the spec: the declaration of `Secret` is not part of the files at hand;
the spec gives `{Value, Meta}`.  `readLatest` stores a client `*string` in `Value`, so
the field is a nullable string. -/
structure Secret where
  Value : Option String
  Meta : SecretMetadata
deriving DecidableEq, Repr

/-- The Go composite literal `SecretMetadata{}`: every field at its zero value. -/
def SecretMetadata.zero : SecretMetadata :=
  { Created := 0, CreatedBy := "", Version := 0, Key := "" }

/-- The Go composite literal `Secret{}`. -/
def Secret.zero : Secret :=
  { Value := none, Meta := SecretMetadata.zero }

/-- The error values a store operation of this file can return.  The code refers to
exactly one, the package variable `ErrSecretNotFound`. -/
inductive StoreError where
  | ErrSecretNotFound
deriving DecidableEq, Repr

deriving instance DecidableEq for Except

/-! ## The Secrets Manager client interface -/

/-- The request of `DescribeSecret`; the code sets only `SecretId`. -/
structure DescribeSecretInput where
  SecretId : Option String
deriving DecidableEq, Repr

/-- The request of `GetSecretValue`; the code sets only `SecretId`. -/
structure GetSecretValueInput where
  SecretId : Option String
deriving DecidableEq, Repr

/-- The response of `DescribeSecret`, with the fields of the client's output type that
identify the secret and its versions. -/
structure DescribeSecretOutput where
  Name : Option String
  VersionIdsToStages : List (String × List String)
deriving DecidableEq, Repr

/-- The response of `GetSecretValue`: the name of the secret, its plaintext content
(`SecretString`) and the id of the version that was read. -/
structure GetSecretValueOutput where
  Name : Option String
  SecretString : Option String
  VersionId : Option String
deriving DecidableEq, Repr

/-- The two methods of `secretsmanageriface.SecretsManagerAPI` that the store calls, as
transitions over a backend state `σ`.  A failing request carries the client's error
message; a successful one carries the (non-nil) response. -/
structure SecretsManagerAPI (σ : Type) where
  DescribeSecret : DescribeSecretInput → σ → Except String DescribeSecretOutput × σ
  GetSecretValue : GetSecretValueInput → σ → Except String GetSecretValueOutput × σ

/-- One request received by the backend. -/
inductive Call where
  | DescribeSecret (input : DescribeSecretInput)
  | GetSecretValue (input : GetSecretValueInput)
deriving DecidableEq, Repr

/-- The world a store operation runs in: the backend state and the log of the requests
the backend has received so far, oldest first. -/
structure World (σ : Type) where
  backend : σ
  calls : List Call

/-- `ASMStore`: the store holds the client it talks to. -/
structure ASMStore (σ : Type) where
  svc : SecretsManagerAPI σ

/-- The call `s.svc.DescribeSecret(input)`. -/
def ASMStore.callDescribeSecret {σ : Type} (s : ASMStore σ) (input : DescribeSecretInput)
    (w : World σ) : Except String DescribeSecretOutput × World σ :=
  let r := s.svc.DescribeSecret input w.backend
  (r.1, { backend := r.2, calls := w.calls ++ [Call.DescribeSecret input] })

/-- The call `s.svc.GetSecretValue(input)`. -/
def ASMStore.callGetSecretValue {σ : Type} (s : ASMStore σ) (input : GetSecretValueInput)
    (w : World σ) : Except String GetSecretValueOutput × World σ :=
  let r := s.svc.GetSecretValue input w.backend
  (r.1, { backend := r.2, calls := w.calls ++ [Call.GetSecretValue input] })

/-! ## `ASMStore` -/

/-- `DefaultASMKeyID`, the default alias of the KMS key. -/
def DefaultASMKeyID : String := "alias/secrets_manager_key"

/-- Go `strings.HasPrefix(s, prefix)`:
`len(s) >= len(prefix) && s[0:len(prefix)] == prefix`. -/
def HasPrefix (s pre : String) : Bool :=
  decide (pre.data.length ≤ s.data.length) && (s.data.take pre.data.length == pre.data)

/-- `ASMStore.KMSKey`.  The argument is the outcome of
`os.LookupEnv("CHAMBER_KMS_KEY_ALIAS")`: `none` when the variable is unset. -/
def KMSKey (lookupEnv : Option String) : String :=
  match lookupEnv with
  | none => DefaultASMKeyID
  | some fromEnv =>
    if !HasPrefix fromEnv "alias/" then
      "alias/" ++ fromEnv
    else
      fromEnv

/-- `ASMStore.idToName`: `fmt.Sprintf("%s/%s", id.Service, id.Key)`. -/
def idToName (id : SecretId) : String :=
  id.Service ++ "/" ++ id.Key

/-- `ASMStore.validateName`: `validPathKeyFormat.MatchString(name)`.  The regular
expression `validPathKeyFormat` is declared outside this file, so its matcher is an
argument. -/
def validateName (validPathKeyFormat : String → Bool) (name : String) : Bool :=
  validPathKeyFormat name

/-- `ASMStore.Write`: the body returns `nil` and touches nothing. -/
def ASMStore.Write {σ : Type} (_s : ASMStore σ) (_id : SecretId) (_value : String)
    (w : World σ) : Option StoreError × World σ :=
  (none, w)

/-- `ASMStore.readLatest`. -/
def ASMStore.readLatest {σ : Type} (s : ASMStore σ) (id : SecretId)
    (w : World σ) : Except StoreError Secret × World σ :=
  let describeSecretInput : DescribeSecretInput := { SecretId := some (idToName id) }
  match s.callDescribeSecret describeSecretInput w with
  | (Except.error _, w1) => (Except.error StoreError.ErrSecretNotFound, w1)
  | (Except.ok _desc, w1) =>
    let getSecretValueInput : GetSecretValueInput := { SecretId := some (idToName id) }
    match s.callGetSecretValue getSecretValueInput w1 with
    | (Except.error _, w2) => (Except.error StoreError.ErrSecretNotFound, w2)
    | (Except.ok resp, w2) =>
      let secretMeta := SecretMetadata.zero
      (Except.ok { Value := resp.Name, Meta := secretMeta }, w2)

/-- `ASMStore.readVersion`. -/
def ASMStore.readVersion {σ : Type} (s : ASMStore σ) (id : SecretId) (_version : Int)
    (w : World σ) : Except StoreError Secret × World σ :=
  let describeSecretInput : DescribeSecretInput := { SecretId := some (idToName id) }
  match s.callDescribeSecret describeSecretInput w with
  | (Except.error _, w1) => (Except.error StoreError.ErrSecretNotFound, w1)
  | (Except.ok _resp, w1) => (Except.ok Secret.zero, w1)

/-- `ASMStore.Read`. -/
def ASMStore.Read {σ : Type} (s : ASMStore σ) (id : SecretId) (version : Int)
    (w : World σ) : Except StoreError Secret × World σ :=
  if version = -1 then
    s.readLatest id w
  else
    s.readVersion id version w

/-- A Go slice `[]T`, by its elements. -/
abbrev Slice (α : Type) : Type := List α

/-- `ASMStore.List`: the body returns the empty slice and `nil`. -/
def ASMStore.List {σ : Type} (_s : ASMStore σ) (_service : String) (_includeValues : Bool)
    (w : World σ) : Except StoreError (Slice Secret) × World σ :=
  (Except.ok [], w)

/-- `ASMStore.ListRaw`: the body returns the empty slice and `nil`.  The element type
`RawSecret` is declared outside this file and is an argument. -/
def ASMStore.ListRaw {σ : Type} (RawSecret : Type) (_s : ASMStore σ) (_service : String)
    (w : World σ) : Except StoreError (Slice RawSecret) × World σ :=
  (Except.ok [], w)


/-! ## Reading a backend name back -/

/-- The reading of a backend name as a `SecretId`: the text before the first `/` is the
service, the text after it is the key.  The store has no such function; it is the
candidate inverse of `idToName` that the reversibility statements are about. -/
def nameToId (name : String) : SecretId :=
  { Service := String.mk (name.data.takeWhile (fun c => c != '/')),
    Key := String.mk ((name.data.dropWhile (fun c => c != '/')).drop 1) }

/-- Modelled from the spec: the regular expression `validPathKeyFormat` is declared
outside the files at hand.  The spec's key validator accepts a non-empty name made of
alphanumeric characters, hyphen, underscore and dot that neither starts nor ends with
one of these three separators. -/
def validPathKeyFormat (name : String) : Bool :=
  let isSeparator : Char → Bool := fun c => c == '-' || c == '_' || c == '.'
  match name.data, name.data.getLast? with
  | first :: _, some last =>
    name.data.all (fun c => c.isAlphanum || isSeparator c)
      && !isSeparator first && !isSeparator last
  | _, _ => false

/-! ## An in-memory Secrets Manager

A concrete backend to run the store against: each secret name is held with its
versions, oldest first, each version being a version id and a plaintext. -/

/-- The state of the in-memory backend. -/
abbrev MemState : Type := List (String × List (String × String))

/-- The in-memory backend: `DescribeSecret` and `GetSecretValue` fail for a name that
is not held (or has no version) and otherwise answer for the newest version; neither
changes the state. -/
def memSecretsManager : SecretsManagerAPI MemState where
  DescribeSecret := fun input st =>
    match input.SecretId with
    | none => (Except.error "InvalidParameterException", st)
    | some name =>
      match st.lookup name with
      | none => (Except.error "ResourceNotFoundException", st)
      | some versions =>
        (Except.ok { Name := some name,
                     VersionIdsToStages := versions.map (fun v => (v.1, [])) }, st)
  GetSecretValue := fun input st =>
    match input.SecretId with
    | none => (Except.error "InvalidParameterException", st)
    | some name =>
      match st.lookup name with
      | none => (Except.error "ResourceNotFoundException", st)
      | some versions =>
        match versions.getLast? with
        | none => (Except.error "ResourceNotFoundException", st)
        | some v =>
          (Except.ok { Name := some name, SecretString := some v.2, VersionId := some v.1 },
            st)

/-- The store wired to the in-memory backend. -/
def memStore : ASMStore MemState := { svc := memSecretsManager }

/-- A world whose backend holds nothing and has received no request. -/
def emptyWorld : World MemState := { backend := [], calls := [] }

/-- A world whose backend holds `billing/api_key` with the single version
`sk_live_abc`, and has received no request. -/
def billingWorld : World MemState :=
  { backend := [("billing/api_key", [("v1", "sk_live_abc")])], calls := [] }

/-- The id `{Service: "billing", Key: "api_key"}` of the spec's scenario. -/
def billingId : SecretId := { Service := "billing", Key := "api_key" }

/-! ## Auxiliary facts -/

/-- A string starts with `pre` when it is `pre` followed by some text. -/
def StartsWith (s pre : String) : Prop := ∃ rest : String, s = pre ++ rest

theorem hasPrefix_iff_startsWith (s pre : String) :
    HasPrefix s pre = true ↔ StartsWith s pre := by
  unfold HasPrefix StartsWith
  constructor
  · intro h
    simp only [Bool.and_eq_true, decide_eq_true_eq, beq_iff_eq] at h
    refine ⟨String.mk (s.data.drop pre.data.length), ?_⟩
    apply String.ext
    rw [String.data_append]
    show s.data = pre.data ++ List.drop pre.data.length s.data
    conv_lhs => rw [← List.take_append_drop pre.data.length s.data, h.2]
  · rintro ⟨rest, rfl⟩
    simp [String.data_append]

theorem hasPrefix_eq_false_iff (s pre : String) :
    HasPrefix s pre = false ↔ ¬ StartsWith s pre := by
  rw [← hasPrefix_iff_startsWith]
  cases HasPrefix s pre <;> simp

/-- Two texts cut at a separator that occurs in neither left part have equal parts. -/
theorem append_sep_inj {α : Type} (c : α) :
    ∀ (s₁ s₂ k₁ k₂ : List α), c ∉ s₁ → c ∉ s₂ →
      s₁ ++ c :: k₁ = s₂ ++ c :: k₂ → s₁ = s₂ ∧ k₁ = k₂
  | [], [], k₁, k₂, _, _, h => by simpa using h
  | [], y :: s₂, k₁, k₂, _, h₂, h => by
    simp only [List.nil_append, List.cons_append, List.cons.injEq] at h
    exact absurd (h.1 ▸ List.mem_cons_self y s₂) h₂
  | x :: s₁, [], k₁, k₂, h₁, _, h => by
    simp only [List.nil_append, List.cons_append, List.cons.injEq] at h
    exact absurd (h.1 ▸ List.mem_cons_self x s₁) h₁
  | x :: s₁, y :: s₂, k₁, k₂, h₁, h₂, h => by
    simp only [List.cons_append, List.cons.injEq] at h
    have ih := append_sep_inj c s₁ s₂ k₁ k₂
      (fun hm => h₁ (List.mem_cons_of_mem x hm)) (fun hm => h₂ (List.mem_cons_of_mem y hm)) h.2
    exact ⟨by rw [h.1, ih.1], ih.2⟩

/-- The same with the separator absent from the right parts. -/
theorem append_sep_inj_right {α : Type} (c : α) (s₁ s₂ k₁ k₂ : List α)
    (h₁ : c ∉ k₁) (h₂ : c ∉ k₂) (h : s₁ ++ c :: k₁ = s₂ ++ c :: k₂) :
    s₁ = s₂ ∧ k₁ = k₂ := by
  have hr := congrArg List.reverse h
  simp only [List.reverse_append, List.reverse_cons, List.append_assoc,
    List.singleton_append] at hr
  have := append_sep_inj c k₁.reverse k₂.reverse s₁.reverse s₂.reverse
    (by simpa using h₁) (by simpa using h₂) hr
  exact ⟨List.reverse_injective this.2, List.reverse_injective this.1⟩

theorem idToName_data (id : SecretId) :
    (idToName id).data = id.Service.data ++ '/' :: id.Key.data := by
  simp [idToName, String.data_append]

theorem takeWhile_ne_append_sep (c : Char) :
    ∀ (s k : List Char), c ∉ s → (s ++ c :: k).takeWhile (fun x => x != c) = s
  | [], k, _ => by simp
  | x :: s, k, h => by
    have hx : x ≠ c := fun e => h (e ▸ List.mem_cons_self x s)
    have ih := takeWhile_ne_append_sep c s k (fun hm => h (List.mem_cons_of_mem x hm))
    simp [List.takeWhile_cons, hx, ih]

theorem dropWhile_ne_append_sep (c : Char) :
    ∀ (s k : List Char), c ∉ s → (s ++ c :: k).dropWhile (fun x => x != c) = c :: k
  | [], k, _ => by simp
  | x :: s, k, h => by
    have hx : x ≠ c := fun e => h (e ▸ List.mem_cons_self x s)
    have ih := dropWhile_ne_append_sep c s k (fun hm => h (List.mem_cons_of_mem x hm))
    simp [List.dropWhile_cons, hx, ih]

theorem nameToId_idToName (id : SecretId) (h : '/' ∉ id.Service.data) :
    nameToId (idToName id) = id := by
  unfold nameToId
  rw [idToName_data, takeWhile_ne_append_sep '/' _ _ h, dropWhile_ne_append_sep '/' _ _ h]
  simp

theorem secretId_ext (a b : SecretId) (hs : a.Service.data = b.Service.data)
    (hk : a.Key.data = b.Key.data) : a = b := by
  cases a; cases b
  simp only [SecretId.mk.injEq]
  exact ⟨String.ext hs, String.ext hk⟩

/-- `Write` returns `nil` and leaves the world as it found it. -/
theorem write_eq {σ : Type} (s : ASMStore σ) (id : SecretId) (value : String)
    (w : World σ) : s.Write id value w = (none, w) := rfl

/-- The requests `readLatest` sends: `DescribeSecret`, then `GetSecretValue` when the
description succeeded, both for `idToName id`. -/
theorem readLatest_calls {σ : Type} (s : ASMStore σ) (id : SecretId) (w : World σ) :
    (s.readLatest id w).2.calls = w.calls ++
      (match (s.svc.DescribeSecret { SecretId := some (idToName id) } w.backend).1 with
       | Except.error _ => [Call.DescribeSecret { SecretId := some (idToName id) }]
       | Except.ok _ => [Call.DescribeSecret { SecretId := some (idToName id) },
                         Call.GetSecretValue { SecretId := some (idToName id) }]) := by
  unfold ASMStore.readLatest ASMStore.callDescribeSecret ASMStore.callGetSecretValue
  simp only
  cases hd : (s.svc.DescribeSecret { SecretId := some (idToName id) } w.backend).1 with
  | error e => simp
  | ok d =>
    simp only
    cases hg : (s.svc.GetSecretValue { SecretId := some (idToName id) }
        (s.svc.DescribeSecret { SecretId := some (idToName id) } w.backend).2).1 with
    | error e => simp
    | ok r => simp

/-- The single request `readVersion` sends: `DescribeSecret` for `idToName id`. -/
theorem readVersion_calls {σ : Type} (s : ASMStore σ) (id : SecretId) (version : Int)
    (w : World σ) :
    (s.readVersion id version w).2.calls
      = w.calls ++ [Call.DescribeSecret { SecretId := some (idToName id) }] := by
  unfold ASMStore.readVersion ASMStore.callDescribeSecret
  simp only
  cases hd : (s.svc.DescribeSecret { SecretId := some (idToName id) } w.backend).1 <;> simp

/-- A successful `readLatest` carries the zero metadata, hence version 0. -/
theorem readLatest_version_zero {σ : Type} (s : ASMStore σ) (id : SecretId) (w : World σ)
    (secret : Secret) (h : (s.readLatest id w).1 = Except.ok secret) :
    secret.Meta.Version = 0 := by
  unfold ASMStore.readLatest at h
  simp only at h
  split at h
  · simp at h
  · split at h
    · simp at h
    · simp only [Except.ok.injEq] at h
      rw [← h]
      rfl

/-- Whenever `DescribeSecret` succeeds, `readVersion` returns the zero `Secret` and no
error, whatever version was asked for. -/
theorem readVersion_of_describe_ok {σ : Type} (s : ASMStore σ) (id : SecretId)
    (version : Int) (w : World σ) (d : DescribeSecretOutput)
    (h : (s.svc.DescribeSecret { SecretId := some (idToName id) } w.backend).1 = Except.ok d) :
    (s.readVersion id version w).1 = Except.ok Secret.zero := by
  unfold ASMStore.readVersion ASMStore.callDescribeSecret
  simp only [h]

/-! ## The name mapping -/

/-- C6: `idToName id` is `id.Service`, then the single character `/`, then `id.Key`, so
its length (in characters and in bytes) is that of the service plus one plus that of the
key; and the requests `Read` sends carry exactly this name: for version `-1`,
`DescribeSecret` and then, after a successful description, `GetSecretValue`; for every
other version, the single `DescribeSecret`. -/
theorem idToName_is_service_slash_key {σ : Type} (s : ASMStore σ) (id : SecretId)
    (w : World σ) :
    idToName id = id.Service ++ "/" ++ id.Key
    ∧ (idToName id).data = id.Service.data ++ ['/'] ++ id.Key.data
    ∧ (idToName id).length = id.Service.length + 1 + id.Key.length
    ∧ (idToName id).utf8ByteSize = id.Service.utf8ByteSize + 1 + id.Key.utf8ByteSize
    ∧ (s.Read id (-1) w).2.calls = w.calls ++
        (match (s.svc.DescribeSecret { SecretId := some (idToName id) } w.backend).1 with
         | Except.error _ => [Call.DescribeSecret { SecretId := some (idToName id) }]
         | Except.ok _ => [Call.DescribeSecret { SecretId := some (idToName id) },
                           Call.GetSecretValue { SecretId := some (idToName id) }])
    ∧ (∀ version : Int, ∃ sent : List Call,
        (s.Read id version w).2.calls = w.calls ++ sent
        ∧ ∀ c ∈ sent, c = Call.DescribeSecret { SecretId := some (idToName id) }
            ∨ c = Call.GetSecretValue { SecretId := some (idToName id) }) := by
  refine ⟨rfl, by simp [idToName, String.data_append], ?_, ?_, ?_, ?_⟩
  · simp only [idToName, String.length_append]
    rfl
  · have hb : ∀ a : String, a.utf8ByteSize = String.utf8Len a.data := fun a => rfl
    rw [hb, hb, hb, idToName_data, String.utf8Len_append, String.utf8Len_cons]
    have : Char.utf8Size '/' = 1 := by decide
    omega
  · simp only [ASMStore.Read, if_true]
    exact readLatest_calls s id w
  · intro version
    by_cases hv : version = -1
    · subst hv
      have hl : (s.Read id (-1) w).2.calls = (s.readLatest id w).2.calls := by
        simp only [ASMStore.Read, if_true]
      have hc := readLatest_calls s id w
      cases hd : (s.svc.DescribeSecret { SecretId := some (idToName id) } w.backend).1 with
      | error e =>
        rw [hd] at hc
        exact ⟨[Call.DescribeSecret { SecretId := some (idToName id) }], hl.trans hc,
          fun c hm => Or.inl (List.mem_singleton.mp hm)⟩
      | ok d =>
        rw [hd] at hc
        refine ⟨[Call.DescribeSecret { SecretId := some (idToName id) },
          Call.GetSecretValue { SecretId := some (idToName id) }], hl.trans hc, ?_⟩
        intro c hm
        simpa using hm
    · have hl : (s.Read id version w).2.calls = (s.readVersion id version w).2.calls := by
        simp only [ASMStore.Read, hv, if_false]
      exact ⟨[Call.DescribeSecret { SecretId := some (idToName id) }],
        hl.trans (readVersion_calls s id version w),
        fun c hm => Or.inl (List.mem_singleton.mp hm)⟩

/-- C7 (counterexample): `{Service: "a/b", Key: "c"}` and `{Service: "a", Key: "b/c"}`
have the same name `a/b/c` although neither their services nor their keys agree. -/
theorem idToName_collision :
    idToName { Service := "a/b", Key := "c" } = idToName { Service := "a", Key := "b/c" }
    ∧ ¬ ((({ Service := "a/b", Key := "c" } : SecretId).Service
            = ({ Service := "a", Key := "b/c" } : SecretId).Service)
         ∧ (({ Service := "a/b", Key := "c" } : SecretId).Key
            = ({ Service := "a", Key := "b/c" } : SecretId).Key)) := by
  decide

/-- C7 (amended): for two ids such that neither service contains `/`, or neither key
contains `/`, equal names imply equal services and equal keys. -/
theorem idToName_reversible_without_slash (a b : SecretId)
    (h : ('/' ∉ a.Service.data ∧ '/' ∉ b.Service.data)
          ∨ ('/' ∉ a.Key.data ∧ '/' ∉ b.Key.data))
    (heq : idToName a = idToName b) :
    a.Service = b.Service ∧ a.Key = b.Key := by
  have hd : a.Service.data ++ '/' :: a.Key.data = b.Service.data ++ '/' :: b.Key.data := by
    rw [← idToName_data, ← idToName_data, heq]
  rcases h with h | h
  · have := append_sep_inj '/' _ _ _ _ h.1 h.2 hd
    exact ⟨String.ext this.1, String.ext this.2⟩
  · have := append_sep_inj_right '/' _ _ _ _ h.1 h.2 hd
    exact ⟨String.ext this.1, String.ext this.2⟩

theorem idToName_reversible_without_slash_witness :
    (({ Service := "billing", Key := "team/api_key" } : SecretId).Service
        = ({ Service := "billing", Key := "team/api_key" } : SecretId).Service)
    ∧ (({ Service := "billing", Key := "team/api_key" } : SecretId).Key
        = ({ Service := "billing", Key := "team/api_key" } : SecretId).Key) :=
  idToName_reversible_without_slash
    { Service := "billing", Key := "team/api_key" }
    { Service := "billing", Key := "team/api_key" }
    (Or.inl ⟨by decide, by decide⟩) rfl

/-- C10: for two ids whose services contain no `/`, equal names imply equal ids, and
the id is recovered from its name by splitting at the first `/`; the condition on the
services cannot be dropped, since the distinct ids `{Service: "a/b", Key: "c"}` and
`{Service: "a", Key: "b/c"}` have the same name. -/
theorem idToName_injective_of_service_without_slash (a b : SecretId)
    (ha : '/' ∉ a.Service.data) (hb : '/' ∉ b.Service.data)
    (heq : idToName a = idToName b) :
    a = b
    ∧ nameToId (idToName a) = a
    ∧ (({ Service := "a/b", Key := "c" } : SecretId) ≠ { Service := "a", Key := "b/c" }
        ∧ idToName { Service := "a/b", Key := "c" }
            = idToName { Service := "a", Key := "b/c" }) := by
  have hd : a.Service.data ++ '/' :: a.Key.data = b.Service.data ++ '/' :: b.Key.data := by
    rw [← idToName_data, ← idToName_data, heq]
  have := append_sep_inj '/' _ _ _ _ ha hb hd
  exact ⟨secretId_ext a b this.1 this.2, nameToId_idToName a ha, by decide, by decide⟩

theorem idToName_injective_of_service_without_slash_witness :
    billingId = { Service := "billing", Key := "api_key" }
    ∧ nameToId (idToName billingId) = billingId
    ∧ (({ Service := "a/b", Key := "c" } : SecretId) ≠ { Service := "a", Key := "b/c" }
        ∧ idToName { Service := "a/b", Key := "c" }
            = idToName { Service := "a", Key := "b/c" }) :=
  idToName_injective_of_service_without_slash billingId
    { Service := "billing", Key := "api_key" } (by decide) (by decide) (by decide)

/-! ## The KMS key alias -/

/-- C8: with the variable unset `KMSKey` is the default `alias/secrets_manager_key`;
with it set to a text that does not start with `alias/` the result is `alias/` followed
by that text; with it set to a text that starts with `alias/` the result is that text;
and in every case the result starts with `alias/`. -/
theorem KMSKey_spec :
    KMSKey none = "alias/secrets_manager_key"
    ∧ (∀ e : String, ¬ StartsWith e "alias/" → KMSKey (some e) = "alias/" ++ e)
    ∧ (∀ e : String, StartsWith e "alias/" → KMSKey (some e) = e)
    ∧ (∀ env : Option String, StartsWith (KMSKey env) "alias/") := by
  have hno : ∀ e : String, ¬ StartsWith e "alias/" → KMSKey (some e) = "alias/" ++ e := by
    intro e h
    have hf := (hasPrefix_eq_false_iff e "alias/").mpr h
    simp [KMSKey, hf]
  have hyes : ∀ e : String, StartsWith e "alias/" → KMSKey (some e) = e := by
    intro e h
    have ht := (hasPrefix_iff_startsWith e "alias/").mpr h
    simp [KMSKey, ht]
  refine ⟨rfl, hno, hyes, ?_⟩
  intro env
  cases env with
  | none => exact ⟨"secrets_manager_key", by decide⟩
  | some e =>
    by_cases h : StartsWith e "alias/"
    · rw [hyes e h]; exact h
    · rw [hno e h]; exact ⟨e, rfl⟩

theorem KMSKey_spec_witness :
    KMSKey (some "prod_key") = "alias/" ++ "prod_key"
    ∧ KMSKey (some "alias/prod_key") = "alias/prod_key" :=
  ⟨KMSKey_spec.2.1 "prod_key"
      ((hasPrefix_eq_false_iff "prod_key" "alias/").mp (by decide)),
   KMSKey_spec.2.2.1 "alias/prod_key"
      ((hasPrefix_iff_startsWith "alias/prod_key" "alias/").mp (by decide))⟩

/-! ## Listing -/

/-- C9: for the empty service and either value of `includeValues`, `List` returns the
empty sequence and no error, and `ListRaw` likewise; neither touches the backend. -/
theorem list_empty_service {σ : Type} (RawSecret : Type) (s : ASMStore σ)
    (includeValues : Bool) (w : World σ) :
    s.List "" includeValues w = (Except.ok [], w)
    ∧ ASMStore.ListRaw RawSecret s "" w = (Except.ok [], w) :=
  ⟨rfl, rfl⟩

/-! ## Writing and reading -/

/-- C1: the store run on the spec's scenario.  On a backend that holds nothing,
`Write(billing/api_key, "sk_live_abc")` returns `nil`, sends no request and leaves the
backend empty, and the following `Read(id, -1)` fails with `ErrSecretNotFound`.  On a
backend that holds version `v1 = "sk_live_abc"`, after `Write(id, "sk_live_def")` the
backend is unchanged and `Read(id, -1)` returns the value `billing/api_key` with
version 0, not `sk_live_def` with version 2. -/
theorem write_then_read_latest_evaluated :
    (memStore.Write billingId "sk_live_abc" emptyWorld).1 = none
    ∧ (memStore.Write billingId "sk_live_abc" emptyWorld).2.calls = []
    ∧ (memStore.Write billingId "sk_live_abc" emptyWorld).2.backend = []
    ∧ (memStore.Read billingId (-1) (memStore.Write billingId "sk_live_abc" emptyWorld).2).1
        = Except.error StoreError.ErrSecretNotFound
    ∧ (memStore.Write billingId "sk_live_def" billingWorld).2.backend
        = [("billing/api_key", [("v1", "sk_live_abc")])]
    ∧ (memStore.Read billingId (-1) (memStore.Write billingId "sk_live_def" billingWorld).2).1
        = Except.ok { Value := some "billing/api_key", Meta := SecretMetadata.zero }
    ∧ SecretMetadata.zero.Version = 0 := by
  decide

/-- C2: on the backend that holds `billing/api_key` with plaintext `sk_live_abc`, both
`DescribeSecret` and `GetSecretValue` succeed, the `GetSecretValue` response carries
the secret string `sk_live_abc`, and `Read(id, -1)` returns as `Value` the response's
`Name`, `billing/api_key`, which is not the secret string. -/
theorem read_latest_value_evaluated :
    (memStore.svc.DescribeSecret { SecretId := some (idToName billingId) }
        billingWorld.backend).1
      = Except.ok { Name := some "billing/api_key", VersionIdsToStages := [("v1", [])] }
    ∧ (memStore.svc.GetSecretValue { SecretId := some (idToName billingId) }
        billingWorld.backend).1
      = Except.ok { Name := some "billing/api_key", SecretString := some "sk_live_abc",
                    VersionId := some "v1" }
    ∧ (memStore.Read billingId (-1) billingWorld).1
      = Except.ok { Value := some "billing/api_key", Meta := SecretMetadata.zero }
    ∧ (some "billing/api_key" : Option String) ≠ some "sk_live_abc" := by
  decide

/-- C3: on the backend that holds `billing/api_key` with one version, `Read(id, 1)` and
`Read(id, 2)` both return no error and the zero `Secret`, whose version is 0. -/
theorem read_version_evaluated :
    (memStore.Read billingId 1 billingWorld).1 = Except.ok Secret.zero
    ∧ (memStore.Read billingId 2 billingWorld).1 = Except.ok Secret.zero
    ∧ Secret.zero.Meta.Version = 0
    ∧ Secret.zero.Value = none := by
  decide

/-- C4: on the backend that holds `billing/api_key`, `Read(id, 0)` and `Read(id, -2)`
return no error (and the zero `Secret`) instead of failing with `ErrSecretNotFound`. -/
theorem read_nonpositive_version_evaluated :
    (memStore.Read billingId 0 billingWorld).1 = Except.ok Secret.zero
    ∧ (memStore.Read billingId (-2) billingWorld).1 = Except.ok Secret.zero
    ∧ (memStore.Read billingId 0 billingWorld).1 ≠ Except.error StoreError.ErrSecretNotFound
    ∧ (memStore.Read billingId (-2) billingWorld).1
        ≠ Except.error StoreError.ErrSecretNotFound := by
  decide

/-- C5: `Write` run on ids the validator rejects.  The validator rejects `has/slash`,
the empty name and `-leadinghyphen`; `Write` for `{Service: "has/slash", Key: ""}` and
for `{Service: "-leadinghyphen", Key: "api_key"}` nevertheless returns `nil`, where a
validation error is due.  It sends no request and leaves the backend as it was. -/
theorem write_rejected_id_evaluated :
    validateName validPathKeyFormat "has/slash" = false
    ∧ validateName validPathKeyFormat "" = false
    ∧ validateName validPathKeyFormat "-leadinghyphen" = false
    ∧ (memStore.Write { Service := "has/slash", Key := "" } "sk_live_abc" emptyWorld).1
        = none
    ∧ (memStore.Write { Service := "has/slash", Key := "" } "sk_live_abc" emptyWorld).2.calls
        = []
    ∧ (memStore.Write { Service := "has/slash", Key := "" } "sk_live_abc"
        emptyWorld).2.backend = []
    ∧ (memStore.Write { Service := "-leadinghyphen", Key := "api_key" } "sk_live_abc"
        billingWorld).1 = none
    ∧ (memStore.Write { Service := "-leadinghyphen", Key := "api_key" } "sk_live_abc"
        billingWorld).2.calls = []
    ∧ (memStore.Write { Service := "-leadinghyphen", Key := "api_key" } "sk_live_abc"
        billingWorld).2.backend = [("billing/api_key", [("v1", "sk_live_abc")])] := by
  decide

end Chamber
